import Mathlib

/-!
Verification of the schema engine of the `windy` visual HTML editor.

The development shallowly embeds the three core functions of
`src/utils/schemaParser.js` — `parseHTMLToSchema` (the Extractor),
`schemaToHTML` (the Serializer, in its variant that performs HTML escaping
and tag/attribute-name validation, which is the variant the repository
documentation describes) and `generateFormFields` (the Field Projector) —
together with their helpers `isRepeatableElement`, `escapeHTML` and
`isValidTagName`.

JavaScript strings are embedded as `String`, JS arrays as `List`, JS objects
used as string-keyed maps as association lists in insertion order (matching
`Object.entries` iteration order for non-numeric keys), and a possibly
`undefined` field as `Option`.  The DOM tree handed to the Extractor by the
external `DOMParser` facility is embedded as the inductive `DomNode`.  The
recursive serializer, whose JS recursion has no termination guarantee on
cyclic inputs, is embedded with an explicit fuel parameter; the exported
`schemaToHTML` runs it with fuel equal to the collection length, which is
sufficient for every acyclic collection (proved below).
-/

/-- One element record of the flat schema collection produced by the
Extractor (`parseHTMLToSchema`). `text` is `Option` because a hand-built JS
record may leave the field `undefined`; the Extractor always sets it. -/
structure ElementRecord where
  id : String
  tag : String
  classes : List String
  attributes : List (String × String)
  text : Option String
  path : List Nat
  children : List String
  isRepeatable : Bool
deriving DecidableEq, Repr

/-- One field descriptor produced by `generateFormFields`.  JS objects that
omit the `readonly` key behave as `readonly: undefined` (falsy), embedded as
the default `false`. -/
structure FormField where
  name : String
  label : String
  type : String
  value : String
  readonly : Bool := false
deriving DecidableEq, Repr

/-- A node of the DOM tree produced by the external markup parser: either a
text node or an element with its `tagName`, `classList`, attribute list
(`node.attributes`, which still includes `class`) and `childNodes`. -/
inductive DomNode where
  | text (content : String)
  | elem (tagName : String) (classList : List String)
      (attrList : List (String × String)) (childNodes : List DomNode)
deriving Repr

/-- DOM accessor: is this node an element node? -/
def isElemNode : DomNode → Bool
  | DomNode.elem _ _ _ _ => true
  | DomNode.text _ => false

/-- DOM accessor `node.children`: the element children only. -/
def childrenOf : DomNode → List DomNode
  | DomNode.elem _ _ _ kids => kids.filter isElemNode
  | DomNode.text _ => []

/-- DOM accessor `node.tagName` (empty for text nodes, which never ask). -/
def tagNameOf : DomNode → String
  | DomNode.elem t _ _ _ => t
  | DomNode.text _ => ""

/-- DOM accessor `node.classList` (as a token list). -/
def classListOf : DomNode → List String
  | DomNode.elem _ cls _ _ => cls
  | DomNode.text _ => []

/-- JS `String.prototype.toLowerCase`, character-wise. -/
def jsToLowerCase (s : String) : String := String.mk (s.data.map Char.toLower)

/-- JS `String.prototype.toUpperCase`, character-wise (used by the DOM model:
`tagName` of an HTML element is upper-cased). -/
def jsToUpperCase (s : String) : String := String.mk (s.data.map Char.toUpper)

/-- Code-point comparison of strings, the effect of the default comparator of
JS `Array.prototype.sort` on class-name tokens. -/
def listCharLe : List Char → List Char → Bool
  | [], _ => true
  | _ :: _, [] => false
  | a :: as, b :: bs =>
    if a.toNat < b.toNat then true
    else if b.toNat < a.toNat then false
    else listCharLe as bs

/-- `a <= b` on strings by code points (JS string comparison). -/
def strLe (a b : String) : Bool := listCharLe a.data b.data

/-- Insert into a sorted list, keeping it sorted. -/
def insertSorted (x : String) : List String → List String
  | [] => [x]
  | y :: ys => if strLe x y then x :: y :: ys else y :: insertSorted x ys

/-- The effect of JS `Array.prototype.sort()` (default string comparator) on
a list of strings: the sorted rearrangement. -/
def sortStrings : List String → List String
  | [] => []
  | x :: xs => insertSorted x (sortStrings xs)

/-- `Array.from(classList).sort().join(' ')`: the order-independent class key
used by the sibling-similarity rule. -/
def classKey (classList : List String) : String :=
  String.intercalate " " (sortStrings classList)

/-- The `repeatableTags` array of `isRepeatableElement`. -/
def repeatableTags : List String := ["span", "a", "button", "div", "article", "section"]

/-- `isRepeatableElement(node)` from `schemaParser.js`.  The DOM parent
(`node.parentElement`) is passed explicitly; it is `none` exactly when the
JS `parent` is `null`. -/
def isRepeatableElement (node : DomNode) (parent : Option DomNode) : Bool :=
  let tag := jsToLowerCase (tagNameOf node)
  if tag = "li" then true
  else
    let siblingsRule : Bool :=
      match parent with
      | some p =>
        let siblings := (childrenOf p).filter
          (fun child => tagNameOf child = tagNameOf node)
        if siblings.length > 1 then
          let nodeClasses := classKey (classListOf node)
          let similarSiblings := siblings.filter
            (fun sibling => classKey (classListOf sibling) = nodeClasses)
          decide (similarSiblings.length > 1)
        else false
      | none => false
    if siblingsRule then true
    else
      if repeatableTags.contains tag then
        match parent with
        | some p => ["ul", "ol", "nav", "menu"].contains (jsToLowerCase (tagNameOf p))
        | none => false
      else false

/-- ASCII whitespace test backing the JS `String.prototype.trim` model. -/
def isWS (c : Char) : Bool := c = ' ' || c = '\t' || c = '\n' || c = '\r'

/-- JS `String.prototype.trim` (ASCII whitespace). -/
def jsTrim (s : String) : String :=
  String.mk (((s.data.dropWhile isWS).reverse.dropWhile isWS).reverse)

/-- The direct-text computation of the Extractor: take the text-node
children, trim each, drop the empty ones, join with a single space. -/
def directText (childNodes : List DomNode) : String :=
  String.intercalate " "
    (((childNodes.filterMap (fun child => match child with
        | DomNode.text s => some s
        | _ => none)).map jsTrim).filter (fun t => t.length > 0))

mutual
/-- Number of nodes of a DOM tree (used as a fuel bound: it strictly
dominates the tree depth). -/
def domSizeN : DomNode → Nat
  | DomNode.text _ => 1
  | DomNode.elem _ _ _ kids => 1 + domSizeL kids
/-- Total number of nodes of a DOM forest. -/
def domSizeL : List DomNode → Nat
  | [] => 0
  | k :: ks => domSizeN k + domSizeL ks
end

/-- The sibling loop of `traverseNode`: run the traversal `tn` over each
child in document order, collecting the ids the element children got, all
records produced, and the advanced ordinal counter.  Text children produce
no record (`traverseNode` returns `null` for them) and are skipped by the
`if (childSchema)` check. -/
def traverseChildrenGo
    (tn : DomNode → Option DomNode → List Nat → Nat →
      Option ElementRecord × List ElementRecord × Nat) :
    List DomNode → DomNode → List Nat → Nat →
      List String × List ElementRecord × Nat
  | [], _, _, n => ([], [], n)
  | k :: ks, parent, path, n =>
    let r := tn k (some parent) path n
    let rest := traverseChildrenGo tn ks parent path r.2.2
    ((match r.1 with
      | some childSchema => childSchema.id :: rest.1
      | none => rest.1),
     r.2.1 ++ rest.2.1, rest.2.2)

/-- `traverseNode(node, path)` of the Extractor.  The JS function appends
each record to the shared `elements` array before recursing into the
element children (pre-order), using `elements.length` as the id ordinal;
the embedding threads that counter explicitly and returns (the record
produced for this node, if an element; the records appended, in order; the
advanced counter).  The structural `fuel` parameter bounds the recursion
depth; every caller supplies a fuel larger than the tree depth, so the
zero case is never reached on those calls. -/
def traverseNodeF : Nat → DomNode → Option DomNode → List Nat → Nat →
    Option ElementRecord × List ElementRecord × Nat
  | 0, _, _, _, n => (none, [], n)
  | fuel + 1, node, parent, path, n =>
    match node with
    | DomNode.text _ => (none, [], n)
    | DomNode.elem t cls attrs kids =>
      let inner := traverseChildrenGo (traverseNodeF fuel) kids
        (DomNode.elem t cls attrs kids) (path ++ [n]) (n + 1)
      let element : ElementRecord :=
        { id := "element-" ++ toString n,
          tag := jsToLowerCase t,
          classes := cls,
          attributes := attrs.filter (fun attr => attr.1 != "class"),
          text := some (directText kids),
          path := path ++ [n],
          children := inner.1,
          isRepeatable := isRepeatableElement (DomNode.elem t cls attrs kids) parent }
      (some element, element :: inner.2.1, inner.2.2)

/-- `parseHTMLToSchema`, starting from the `body` element produced by the
external parser: traverse each child of the body (whose `parentElement` is
the body itself) and return the flat record collection.  `domSizeL kids`
strictly dominates the tree depth, so the fuel never runs out. -/
def parseHTMLToSchema (body : DomNode) : List ElementRecord :=
  match body with
  | DomNode.elem _ _ _ kids =>
    (traverseChildrenGo (traverseNodeF (domSizeL kids)) kids body [] 0).2.1
  | DomNode.text _ => []

/-- JS `str.replace(/p/g, rep)` for a single-character pattern `p`: every
occurrence of `p` is replaced by `rep`, in one left-to-right pass. -/
def replaceChar (p : Char) (rep : String) (s : String) : String :=
  String.mk (s.data.flatMap (fun c => if c = p then rep.data else [c]))

/-- `escapeHTML(str)` of the Serializer: `if (!str) return ''` (the only
falsy string is the empty one), then the five sequential global replaces.
Each replacement string contains no character replaced by a later pass, so
the chain escapes exactly the five characters of the original string. -/
def escapeHTML (s : String) : String :=
  if s = "" then ""
  else
    replaceChar '\'' "&#039;"
      (replaceChar '"' "&quot;"
        (replaceChar '>' "&gt;"
          (replaceChar '<' "&lt;"
            (replaceChar '&' "&amp;" s))))

/-- The regex `^[a-z][a-z0-9\-]*$` with the `i` flag, used both by
`isValidTagName` and by the attribute-name check of `buildElement`. -/
def matchesNamePattern (s : String) : Bool :=
  match s.data with
  | [] => false
  | c :: cs =>
    ((97 ≤ c.toNat && c.toNat ≤ 122) || (65 ≤ c.toNat && c.toNat ≤ 90)) &&
    cs.all (fun d =>
      (97 ≤ d.toNat && d.toNat ≤ 122) || (65 ≤ d.toNat && d.toNat ≤ 90) ||
      (48 ≤ d.toNat && d.toNat ≤ 57) || d = '-')

/-- `isValidTagName(tag)` of the Serializer. -/
def isValidTagName (tag : String) : Bool := matchesNamePattern tag

/-- `buildElement(elementId)` of the Serializer, with an explicit fuel
bounding the recursion depth through `children` ids (the JS recursion has
no such bound; see the termination theorem below).  Looks the id up in the
collection, validates the tag, renders the escaped class/attribute pairs,
recurses into the children and wraps the escaped text. -/
def buildElementFuel (elements : List ElementRecord) : Nat → String → String
  | 0, _ => ""
  | fuel + 1, elementId =>
    match elements.find? (fun el => el.id == elementId) with
    | none => ""
    | some element =>
      if !isValidTagName element.tag then ""
      else
        let classAttrs :=
          if element.classes.length > 0 then
            ["class=\"" ++ String.intercalate " " (element.classes.map escapeHTML) ++ "\""]
          else []
        let attrs := classAttrs ++ element.attributes.filterMap (fun kv =>
          if matchesNamePattern kv.1 then
            some (escapeHTML kv.1 ++ "=\"" ++ escapeHTML kv.2 ++ "\"")
          else none)
        let attrString :=
          if attrs.length > 0 then " " ++ String.intercalate " " attrs else ""
        let childrenHTML :=
          String.join (element.children.map
            (fun childId => buildElementFuel elements fuel childId))
        let textContent := escapeHTML (element.text.getD "")
        "<" ++ element.tag ++ attrString ++ ">" ++ textContent ++ childrenHTML
          ++ "</" ++ element.tag ++ ">"

/-- The body of `schemaToHTML` after its null/empty guard, at a given fuel:
root records (ids referenced in no `children` list) serialized in
collection order, joined by a newline. -/
def schemaToHTMLFuel (elements : List ElementRecord) (fuel : Nat) : String :=
  let childIds := elements.flatMap (fun el => el.children)
  let rootElements := elements.filter (fun el => !childIds.contains el.id)
  String.intercalate "\n" (rootElements.map
    (fun el => buildElementFuel elements fuel el.id))

/-- `schemaToHTML(elements)`: `none` embeds a null/undefined argument, for
which the guard `if (!elements || elements.length === 0) return ''` yields
the empty string.  The serializer runs with fuel `elements.length`, which
the termination theorem shows is the recursion's fixpoint on acyclic
collections. -/
def schemaToHTML : Option (List ElementRecord) → String
  | none => ""
  | some elements =>
    if elements.length = 0 then "" else schemaToHTMLFuel elements elements.length

/-- `generateFormFields(element)` of the Field Projector. -/
def generateFormFields (element : ElementRecord) : List FormField :=
  [{ name := "tag", label := "Tag", type := "text", value := element.tag,
     readonly := true }]
  ++ (match element.text with
      | some t => [{ name := "text", label := "Text Content", type := "textarea",
                     value := t }]
      | none => [])
  ++ [{ name := "classes", label := "Classes", type := "text",
        value := String.intercalate " " element.classes }]
  ++ element.attributes.map (fun kv =>
      { name := "attr_" ++ kv.1, label := kv.1, type := "text", value := kv.2 })

/-! ## Modelled external markup parsing

The Extractor's input DOM is produced by the browser's `DOMParser`, an
external collaborator of the repository.  The definitions below are a
minimal stand-in for it, used only on concrete well-formed fragments. -/

/-- Modelled from the spec: the external document-parsing facility performs
entity decoding ("behavior must match common browser parsing (auto-closing
tags, entity decoding)", spec section 6).  Decodes the five entities the
Serializer emits, scanning left to right. -/
def decodeEntities : List Char → List Char
  | [] => []
  | '&' :: 'a' :: 'm' :: 'p' :: ';' :: rest => '&' :: decodeEntities rest
  | '&' :: 'l' :: 't' :: ';' :: rest => '<' :: decodeEntities rest
  | '&' :: 'g' :: 't' :: ';' :: rest => '>' :: decodeEntities rest
  | '&' :: 'q' :: 'u' :: 'o' :: 't' :: ';' :: rest => '"' :: decodeEntities rest
  | '&' :: '#' :: '0' :: '3' :: '9' :: ';' :: rest => '\'' :: decodeEntities rest
  | c :: rest => c :: decodeEntities rest

/-- Take raw text up to the next `<`. -/
def takeText : List Char → List Char × List Char
  | [] => ([], [])
  | '<' :: rest => ([], '<' :: rest)
  | c :: rest =>
    let r := takeText rest
    (c :: r.1, r.2)

/-- Take a run of tag/attribute-name characters. -/
def takeName : List Char → List Char × List Char
  | [] => ([], [])
  | c :: rest =>
    if c.isAlpha || c.isDigit || c = '-' then
      let r := takeName rest
      (c :: r.1, r.2)
    else ([], c :: rest)

/-- Skip blanks inside a tag. -/
def skipSpaces : List Char → List Char
  | ' ' :: rest => skipSpaces rest
  | cs => cs

/-- Take a double-quoted attribute value (the closing quote is consumed). -/
def takeAttrValue : List Char → List Char × List Char
  | [] => ([], [])
  | '"' :: rest => ([], rest)
  | c :: rest =>
    let r := takeAttrValue rest
    (c :: r.1, r.2)

/-- Modelled from the spec: attribute parsing of the external facility, for
`name="value"` attributes as emitted by the Serializer; values are
entity-decoded. -/
def parseAttrsF : Nat → List Char → List (String × String) × List Char
  | 0, cs => ([], cs)
  | fuel + 1, cs =>
    match skipSpaces cs with
    | '>' :: rest => ([], rest)
    | [] => ([], [])
    | cs' =>
      let nm := takeName cs'
      match nm.2 with
      | '=' :: '"' :: r2 =>
        let v := takeAttrValue r2
        let rest := parseAttrsF fuel v.2
        ((String.mk nm.1, String.mk (decodeEntities v.1)) :: rest.1, rest.2)
      | r1 =>
        let rest := parseAttrsF fuel r1
        ((String.mk nm.1, "") :: rest.1, rest.2)

/-- Drop up to and including the next `>`. -/
def dropToGt : List Char → List Char
  | [] => []
  | '>' :: rest => rest
  | _ :: rest => dropToGt rest

/-- Skip a `</name>` closing tag if one starts here. -/
def skipCloseTag : List Char → List Char
  | '<' :: '/' :: rest => dropToGt rest
  | cs => cs

/-- Split an attribute value on whitespace, the way `classList` presents
the `class` attribute's tokens. -/
def splitWSFold (cs : List Char) : List String :=
  let r := cs.foldl
    (fun (acc : List String × List Char) c =>
      if isWS c then
        match acc.2 with
        | [] => acc
        | w => (acc.1 ++ [String.mk w.reverse], [])
      else (acc.1, c :: acc.2)) ([], [])
  r.1 ++ (match r.2 with
    | [] => []
    | w => [String.mk w.reverse])

/-- The `class` attribute's characters, if present. -/
def classAttrChars (attrs : List (String × String)) : List Char :=
  match attrs.find? (fun kv => kv.1 == "class") with
  | some kv => kv.2.data
  | none => []

/-- Modelled from the spec: the external markup parser, turning a fragment
string into sibling DOM nodes (spec section 6: "a markup-parsing facility
capable of turning an arbitrary fragment into a traversable element tree
with attribute/class/child accessors").  Handles elements with
double-quoted attributes, raw text, entity decoding and upper-cased
`tagName`s, which covers every fragment the Serializer emits. -/
def parseNodesF : Nat → List Char → List DomNode × List Char
  | 0, cs => ([], cs)
  | _ + 1, [] => ([], [])
  | _ + 1, '<' :: '/' :: rest => ([], '<' :: '/' :: rest)
  | fuel + 1, '<' :: rest =>
    let nm := takeName rest
    let at0 := parseAttrsF (nm.2.length + 1) nm.2
    let kids := parseNodesF fuel at0.2
    let afterClose := skipCloseTag kids.2
    let sibs := parseNodesF fuel afterClose
    (DomNode.elem (jsToUpperCase (String.mk nm.1))
        (splitWSFold (classAttrChars at0.1)) at0.1 kids.1 :: sibs.1, sibs.2)
  | fuel + 1, c :: rest =>
    let t := takeText (c :: rest)
    let sibs := parseNodesF fuel t.2
    (DomNode.text (String.mk (decodeEntities t.1)) :: sibs.1, sibs.2)

/-- Modelled from the spec: parse a fragment string into the list of DOM
nodes that become the body's children. -/
def parseFragment (html : String) : List DomNode :=
  (parseNodesF (html.length + 1) html.data).1

/-- The Extractor applied to a markup string: external parsing (modelled
above) into a `BODY` element, then `parseHTMLToSchema`. -/
def parseHTMLToSchemaStr (html : String) : List ElementRecord :=
  parseHTMLToSchema (DomNode.elem "BODY" [] [] (parseFragment html))

/-! ## Specification-side helper definitions used by the theorems -/

/-- The character-wise effect of the `escapeHTML` replacement chain. -/
def escapeChar (c : Char) : List Char :=
  if c = '&' then "&amp;".data
  else if c = '<' then "&lt;".data
  else if c = '>' then "&gt;".data
  else if c = '"' then "&quot;".data
  else if c = '\'' then "&#039;".data
  else [c]

/-- Scanner for the well-formedness guarantee: accepts exactly the strings
with no raw `<`, `>`, `"` or apostrophe and in which every `&` begins one of
the five entities the Serializer emits. -/
def isEscapedText : List Char → Bool
  | [] => true
  | c :: rest =>
    if c = '<' ∨ c = '>' ∨ c = '"' ∨ c = '\'' then false
    else if c = '&' then
      match rest with
      | 'a' :: 'm' :: 'p' :: ';' :: r => isEscapedText r
      | 'l' :: 't' :: ';' :: r => isEscapedText r
      | 'g' :: 't' :: ';' :: r => isEscapedText r
      | 'q' :: 'u' :: 'o' :: 't' :: ';' :: r => isEscapedText r
      | '#' :: '0' :: '3' :: '9' :: ';' :: r => isEscapedText r
      | _ => false
    else isEscapedText rest

/-- Value of a decimal digit character (0 elsewhere). -/
def digitVal (c : Char) : Nat :=
  if c = '0' then 0 else if c = '1' then 1 else if c = '2' then 2
  else if c = '3' then 3 else if c = '4' then 4 else if c = '5' then 5
  else if c = '6' then 6 else if c = '7' then 7 else if c = '8' then 8
  else if c = '9' then 9 else 0

/-- Value of a decimal digit string (used to invert `toString` on `Nat`). -/
def decodeDigits : List Char → Nat
  | [] => 0
  | c :: cs => digitVal c * 10 ^ cs.length + decodeDigits cs

/-- The ids `element-s, element-(s+1), …, element-(s+k-1)`. -/
def idRange (s k : Nat) : List String :=
  (List.range' s k).map (fun i => "element-" ++ toString i)

/-- Fold an element count over a forest. -/
def elemCountGo (cn : DomNode → Nat) : List DomNode → Nat
  | [] => 0
  | k :: ks => cn k + elemCountGo cn ks

/-- Number of element nodes in a DOM tree, with the same fuel structure as
the traversal (for every fuel at least `domSizeN` it equals the true
element count; see `elemCountF_stable`). -/
def elemCountF : Nat → DomNode → Nat
  | 0, _ => 0
  | fuel + 1, DomNode.text _ => 0
  | fuel + 1, DomNode.elem _ _ _ kids => 1 + elemCountGo (elemCountF fuel) kids

/-- Number of element nodes at or below the children of `body`: the number
of records the Extractor produces. -/
def countElements : DomNode → Nat
  | DomNode.elem _ _ _ kids => elemCountGo (elemCountF (domSizeL kids)) kids
  | DomNode.text _ => 0

/-- The ids assigned to the element nodes of a forest when traversal starts
at ordinal `n`: one id per direct element child, in document order, each
followed by the span its subtree occupies. -/
def childStartsF (fuel : Nat) : List DomNode → Nat → List String
  | [], _ => []
  | DomNode.text _ :: ks, n => childStartsF fuel ks n
  | DomNode.elem t cls attrs gkids :: ks, n =>
    if fuel = 0 then childStartsF fuel ks n
    else ("element-" ++ toString n) ::
      childStartsF fuel ks (n + elemCountF fuel (DomNode.elem t cls attrs gkids))

/-- The attribute strings `buildElement` renders: the class attribute when
`classes` is nonempty, then one `key="value"` per attribute whose key
matches the name pattern, key and value escaped. -/
def renderedAttrs (element : ElementRecord) : List String :=
  (if element.classes.length > 0 then
    ["class=\"" ++ String.intercalate " " (element.classes.map escapeHTML) ++ "\""]
  else [])
  ++ (element.attributes.filter (fun kv => matchesNamePattern kv.1)).map
      (fun kv => escapeHTML kv.1 ++ "=\"" ++ escapeHTML kv.2 ++ "\"")

/-- The full attribute fragment of an emitted opening tag. -/
def attrStringOf (element : ElementRecord) : String :=
  if (renderedAttrs element).length > 0 then
    " " ++ String.intercalate " " (renderedAttrs element)
  else ""

/-! ## Concrete inputs used by the claims -/

/-- Record whose text is the literal string `<script>`. -/
def scriptTextRecord : ElementRecord :=
  { id := "element-0", tag := "div", classes := [], attributes := [],
    text := some "<script>", path := [0], children := [],
    isRepeatable := false }

/-- Record with the invalid tag `123invalid`. -/
def invalidTagRecord : ElementRecord :=
  { id := "element-0", tag := "123invalid", classes := ["x"],
    attributes := [("href", "#")], text := some "boom", path := [0],
    children := [], isRepeatable := false }

/-- A well-formed sibling of the invalid-tag record. -/
def okParagraphRecord : ElementRecord :=
  { id := "element-1", tag := "p", classes := [], attributes := [],
    text := some "ok", path := [1], children := [], isRepeatable := false }

/-- Record with one attribute key matching the safe-name pattern and one
(containing a space) that does not. -/
def attrDemoRecord : ElementRecord :=
  { id := "element-0", tag := "div", classes := [],
    attributes := [("onclick", "alert(1)"), ("data bad", "x")],
    text := some "hi", path := [0], children := [], isRepeatable := false }

/-- Record with hostile characters in a class token, an attribute value and
the text. -/
def hostileRecord : ElementRecord :=
  { id := "element-0", tag := "div", classes := ["x\"y"],
    attributes := [("title", "it's")], text := some "a<b&c", path := [0],
    children := [], isRepeatable := false }

/-- Record for the field-projection example: classes `["a","b"]` and
attributes `{href:"#", id:"x"}`. -/
def formDemoRecord : ElementRecord :=
  { id := "element-0", tag := "div", classes := ["a", "b"],
    attributes := [("href", "#"), ("id", "x")], text := some "hello",
    path := [0], children := [], isRepeatable := false }

/-- A two-record parent/child collection (acyclic). -/
def nestedPairCollection : List ElementRecord :=
  [{ id := "element-0", tag := "div", classes := [], attributes := [],
     text := some "", path := [0], children := ["element-1"],
     isRepeatable := false },
   { id := "element-1", tag := "span", classes := [], attributes := [],
     text := some "x", path := [0, 1], children := [],
     isRepeatable := false }]

/-- A topological rank witnessing that `nestedPairCollection` is acyclic. -/
def nestedPairRank (id : String) : Nat := if id = "element-1" then 0 else 1

/-- Everything `traverseNodeF` guarantees about one node at counter `n`:
the counter advances by the subtree's element count, the produced records
carry the ids `element-n, …` consecutively, the returned record (present
exactly on elements with nonzero fuel) carries id `element-n` and its
direct children's ids, every child reference of every produced record
points strictly below the referencing record inside the subtree's id span,
and the id span is exactly this node's id (if any) plus all child
references. -/
def NodeSpec (fuel : Nat) (k : DomNode) (parent : Option DomNode)
    (path : List Nat) (n : Nat) : Prop :=
  (traverseNodeF fuel k parent path n).2.2 = n + elemCountF fuel k
  ∧ (traverseNodeF fuel k parent path n).2.1.map (fun r => r.id)
      = idRange n (elemCountF fuel k)
  ∧ (fuel = 0 → (traverseNodeF fuel k parent path n).1 = none)
  ∧ (∀ s, k = DomNode.text s → (traverseNodeF fuel k parent path n).1 = none)
  ∧ (∀ f t cls attrs kids, fuel = f + 1 → k = DomNode.elem t cls attrs kids →
      ∃ r0, (traverseNodeF fuel k parent path n).1 = some r0
        ∧ r0.id = "element-" ++ toString n
        ∧ r0.children = childStartsF f kids (n + 1))
  ∧ (∀ j (hj : j < (traverseNodeF fuel k parent path n).2.1.length) cid,
      cid ∈ ((traverseNodeF fuel k parent path n).2.1.get ⟨j, hj⟩).children →
      ∃ m, n + j < m ∧ m < n + elemCountF fuel k ∧ cid = "element-" ++ toString m)
  ∧ ((match (traverseNodeF fuel k parent path n).1 with
      | some r0 => [r0.id]
      | none => [])
      ++ (traverseNodeF fuel k parent path n).2.1.flatMap (fun r => r.children)).Perm
      (idRange n (elemCountF fuel k))

/-- The same guarantees for the sibling loop over a forest. -/
def ListSpec (fuel : Nat) (ks : List DomNode) (parent : DomNode)
    (path : List Nat) (n : Nat) : Prop :=
  (traverseChildrenGo (traverseNodeF fuel) ks parent path n).2.2
      = n + elemCountGo (elemCountF fuel) ks
  ∧ (traverseChildrenGo (traverseNodeF fuel) ks parent path n).2.1.map (fun r => r.id)
      = idRange n (elemCountGo (elemCountF fuel) ks)
  ∧ (traverseChildrenGo (traverseNodeF fuel) ks parent path n).1
      = childStartsF fuel ks n
  ∧ (∀ j (hj : j < (traverseChildrenGo (traverseNodeF fuel) ks parent path n).2.1.length) cid,
      cid ∈ ((traverseChildrenGo (traverseNodeF fuel) ks parent path n).2.1.get ⟨j, hj⟩).children →
      ∃ m, n + j < m ∧ m < n + elemCountGo (elemCountF fuel) ks
        ∧ cid = "element-" ++ toString m)
  ∧ ((traverseChildrenGo (traverseNodeF fuel) ks parent path n).1
      ++ (traverseChildrenGo (traverseNodeF fuel) ks parent path n).2.1.flatMap
          (fun r => r.children)).Perm
      (idRange n (elemCountGo (elemCountF fuel) ks))

/-! ## Properties of the escaping chain -/

theorem replaceChar_data (p : Char) (rep : String) (s : String) :
    (replaceChar p rep s).data = s.data.flatMap (fun d => if d = p then rep.data else [d]) :=
  rfl

theorem escapeChain_char (c : Char) :
    (((((if c = '&' then "&amp;".data else [c]).flatMap
      (fun d => if d = '<' then "&lt;".data else [d])).flatMap
      (fun d => if d = '>' then "&gt;".data else [d])).flatMap
      (fun d => if d = '"' then "&quot;".data else [d])).flatMap
      (fun d => if d = '\'' then "&#039;".data else [d])) = escapeChar c := by
  by_cases h1 : c = '&'
  · subst h1; decide
  by_cases h2 : c = '<'
  · subst h2; decide
  by_cases h3 : c = '>'
  · subst h3; decide
  by_cases h4 : c = '"'
  · subst h4; decide
  by_cases h5 : c = '\''
  · subst h5; decide
  simp [escapeChar, h1, h2, h3, h4, h5]

theorem escapeChain_list (cs : List Char) :
    ((((cs.flatMap (fun d => if d = '&' then "&amp;".data else [d])).flatMap
      (fun d => if d = '<' then "&lt;".data else [d])).flatMap
      (fun d => if d = '>' then "&gt;".data else [d])).flatMap
      (fun d => if d = '"' then "&quot;".data else [d])).flatMap
      (fun d => if d = '\'' then "&#039;".data else [d]) = cs.flatMap escapeChar := by
  induction cs with
  | nil => rfl
  | cons c cs ih =>
    have hc := escapeChain_char c
    simp only [List.flatMap_cons, List.flatMap_append]
    rw [ih, hc]

theorem escapeHTML_data (s : String) :
    (escapeHTML s).data = s.data.flatMap escapeChar := by
  by_cases h : s = ""
  · subst h; rfl
  · show (if s = "" then "" else _).data = _
    rw [if_neg h]
    rw [replaceChar_data, replaceChar_data, replaceChar_data, replaceChar_data,
      replaceChar_data]
    exact escapeChain_list s.data

theorem escapeChar_no_raw (c x : Char)
    (hx : x = '<' ∨ x = '>' ∨ x = '"' ∨ x = '\'') : x ∉ escapeChar c := by
  by_cases h1 : c = '&'
  · subst h1; rcases hx with rfl | rfl | rfl | rfl <;> decide
  by_cases h2 : c = '<'
  · subst h2; rcases hx with rfl | rfl | rfl | rfl <;> decide
  by_cases h3 : c = '>'
  · subst h3; rcases hx with rfl | rfl | rfl | rfl <;> decide
  by_cases h4 : c = '"'
  · subst h4; rcases hx with rfl | rfl | rfl | rfl <;> decide
  by_cases h5 : c = '\''
  · subst h5; rcases hx with rfl | rfl | rfl | rfl <;> decide
  · intro hmem
    simp only [escapeChar, if_neg h1, if_neg h2, if_neg h3, if_neg h4, if_neg h5,
      List.mem_singleton] at hmem
    subst hmem
    rcases hx with h | h | h | h
    · exact h2 h
    · exact h3 h
    · exact h4 h
    · exact h5 h

theorem isEscapedText_amp (r : List Char) :
    isEscapedText ('&' :: 'a' :: 'm' :: 'p' :: ';' :: r) = isEscapedText r := rfl

theorem isEscapedText_lt (r : List Char) :
    isEscapedText ('&' :: 'l' :: 't' :: ';' :: r) = isEscapedText r := rfl

theorem isEscapedText_gt (r : List Char) :
    isEscapedText ('&' :: 'g' :: 't' :: ';' :: r) = isEscapedText r := rfl

theorem isEscapedText_quot (r : List Char) :
    isEscapedText ('&' :: 'q' :: 'u' :: 'o' :: 't' :: ';' :: r) = isEscapedText r := rfl

theorem isEscapedText_apos (r : List Char) :
    isEscapedText ('&' :: '#' :: '0' :: '3' :: '9' :: ';' :: r) = isEscapedText r := rfl

set_option maxHeartbeats 1600000 in
theorem isEscapedText_other (c : Char) (r : List Char)
    (h1 : c ≠ '<') (h2 : c ≠ '>') (h3 : c ≠ '"') (h4 : c ≠ '\'') (h5 : c ≠ '&') :
    isEscapedText (c :: r) = isEscapedText r := by
  have hcond : ¬(c = '<' ∨ c = '>' ∨ c = '"' ∨ c = '\'') := by tauto
  conv_lhs => unfold isEscapedText
  rw [if_neg hcond, if_neg h5]

theorem isEscapedText_flatMap (cs : List Char) :
    isEscapedText (cs.flatMap escapeChar) = true := by
  induction cs with
  | nil => rfl
  | cons c cs ih =>
    rw [List.flatMap_cons]
    by_cases h1 : c = '&'
    · subst h1
      show isEscapedText ('&' :: 'a' :: 'm' :: 'p' :: ';' :: _) = true
      rw [isEscapedText_amp]; exact ih
    by_cases h2 : c = '<'
    · subst h2
      show isEscapedText ('&' :: 'l' :: 't' :: ';' :: _) = true
      rw [isEscapedText_lt]; exact ih
    by_cases h3 : c = '>'
    · subst h3
      show isEscapedText ('&' :: 'g' :: 't' :: ';' :: _) = true
      rw [isEscapedText_gt]; exact ih
    by_cases h4 : c = '"'
    · subst h4
      show isEscapedText ('&' :: 'q' :: 'u' :: 'o' :: 't' :: ';' :: _) = true
      rw [isEscapedText_quot]; exact ih
    by_cases h5 : c = '\''
    · subst h5
      show isEscapedText ('&' :: '#' :: '0' :: '3' :: '9' :: ';' :: _) = true
      rw [isEscapedText_apos]; exact ih
    · have : escapeChar c = [c] := by
        simp [escapeChar, h1, h2, h3, h4, h5]
      rw [this, List.singleton_append, isEscapedText_other c _ h2 h3 h4 h5 h1]
      exact ih

/-! ## Injectivity of the id scheme -/

theorem digitVal_digitChar (d : Nat) (hd : d < 10) : digitVal (Nat.digitChar d) = d := by
  interval_cases d <;> rfl

theorem decode_toDigitsCore :
    ∀ (fuel n : Nat) (ds : List Char), n < fuel →
      decodeDigits (Nat.toDigitsCore 10 fuel n ds) =
        n * 10 ^ ds.length + decodeDigits ds := by
  intro fuel
  induction fuel with
  | zero => intro n ds h; omega
  | succ fuel ih =>
    intro n ds h
    rw [Nat.toDigitsCore]
    by_cases h0 : n / 10 = 0
    · rw [if_pos h0]
      have hm : n % 10 < 10 := Nat.mod_lt _ (by omega)
      have hrep : digitVal (Nat.digitChar (n % 10)) = n % 10 := digitVal_digitChar _ hm
      have hn : n % 10 = n := by omega
      simp only [decodeDigits]
      rw [hrep, hn]
    · rw [if_neg h0]
      have hlt : n / 10 < fuel := by omega
      rw [ih (n / 10) (Nat.digitChar (n % 10) :: ds) hlt]
      have hm : n % 10 < 10 := Nat.mod_lt _ (by omega)
      have hrep : digitVal (Nat.digitChar (n % 10)) = n % 10 := digitVal_digitChar _ hm
      simp only [decodeDigits, List.length_cons, hrep]
      have key : n / 10 * 10 ^ (ds.length + 1) + n % 10 * 10 ^ ds.length =
          n * 10 ^ ds.length := by
        rw [Nat.pow_succ]
        have hdm : 10 * (n / 10) + n % 10 = n := Nat.div_add_mod n 10
        calc n / 10 * (10 ^ ds.length * 10) + n % 10 * 10 ^ ds.length
            = (10 * (n / 10) + n % 10) * 10 ^ ds.length := by ring
          _ = n * 10 ^ ds.length := by rw [hdm]
      omega

theorem decode_toString (n : Nat) : decodeDigits (toString n).data = n := by
  show decodeDigits (Nat.repr n).data = n
  rw [Nat.repr]
  have h := decode_toDigitsCore (n + 1) n [] (Nat.lt_succ_self n)
  simpa [Nat.toDigits, List.asString, decodeDigits] using h

theorem elemId_injective :
    Function.Injective (fun i : Nat => "element-" ++ toString i) := by
  intro m n h
  have hd : ("element-" ++ toString m : String).data
      = ("element-" ++ toString n : String).data := by
    simp only at h
    rw [h]
  rw [String.data_append, String.data_append] at hd
  have hd2 : (toString m : String).data = (toString n : String).data :=
    List.append_cancel_left hd
  have hm := decode_toString m
  rw [hd2, decode_toString n] at hm
  omega

/-! ## Properties of `idRange` -/

theorem idRange_zero (s : Nat) : idRange s 0 = [] := rfl

theorem idRange_succ (s k : Nat) :
    idRange s (k + 1) = ("element-" ++ toString s) :: idRange (s + 1) k := by
  simp [idRange, List.range'_succ]

theorem idRange_append (s a b : Nat) :
    idRange s a ++ idRange (s + a) b = idRange s (a + b) := by
  unfold idRange
  rw [← List.map_append, List.range'_append_1, Nat.add_comm b a]

theorem idRange_length (s k : Nat) : (idRange s k).length = k := by
  simp [idRange]

theorem mem_idRange {x : String} {s k : Nat} :
    x ∈ idRange s k ↔ ∃ m, s ≤ m ∧ m < s + k ∧ x = "element-" ++ toString m := by
  simp only [idRange, List.mem_map, List.mem_range'_1]
  constructor
  · rintro ⟨m, ⟨hm1, hm2⟩, rfl⟩
    exact ⟨m, hm1, hm2, rfl⟩
  · rintro ⟨m, hm1, hm2, rfl⟩
    exact ⟨m, ⟨hm1, hm2⟩, rfl⟩

theorem idRange_getElem (s k i : Nat) (h : i < (idRange s k).length) :
    (idRange s k).get ⟨i, h⟩ = "element-" ++ toString (s + i) := by
  simp only [idRange, List.get_eq_getElem, List.getElem_map, List.getElem_range']
  congr 2
  omega

theorem idRange_nodup (s k : Nat) : (idRange s k).Nodup :=
  (List.nodup_range' s k).map elemId_injective

/-! ## Unfolding equations for the traversal -/

theorem elemCountF_text (fuel : Nat) (s : String) :
    elemCountF fuel (DomNode.text s) = 0 := by
  cases fuel <;> rfl

theorem elemCountF_elem (fuel : Nat) (t : String) (cls : List String)
    (attrs : List (String × String)) (kids : List DomNode) :
    elemCountF (fuel + 1) (DomNode.elem t cls attrs kids)
      = 1 + elemCountGo (elemCountF fuel) kids := rfl

theorem elemCountGo_nil (cn : DomNode → Nat) : elemCountGo cn [] = 0 := rfl

theorem elemCountGo_cons (cn : DomNode → Nat) (k : DomNode) (ks : List DomNode) :
    elemCountGo cn (k :: ks) = cn k + elemCountGo cn ks := rfl

theorem childStartsF_nil (fuel n : Nat) : childStartsF fuel [] n = [] := rfl

theorem childStartsF_text (fuel n : Nat) (s : String) (ks : List DomNode) :
    childStartsF fuel (DomNode.text s :: ks) n = childStartsF fuel ks n := rfl

theorem childStartsF_elem (fuel n : Nat) (t : String) (cls : List String)
    (attrs : List (String × String)) (gkids ks : List DomNode) :
    childStartsF fuel (DomNode.elem t cls attrs gkids :: ks) n =
      if fuel = 0 then childStartsF fuel ks n
      else ("element-" ++ toString n) ::
        childStartsF fuel ks (n + elemCountF fuel (DomNode.elem t cls attrs gkids)) := rfl

theorem tcg_nil (tn : DomNode → Option DomNode → List Nat → Nat →
      Option ElementRecord × List ElementRecord × Nat)
    (parent : DomNode) (path : List Nat) (n : Nat) :
    traverseChildrenGo tn [] parent path n = ([], [], n) := rfl

theorem tcg_cons (tn : DomNode → Option DomNode → List Nat → Nat →
      Option ElementRecord × List ElementRecord × Nat)
    (k : DomNode) (ks : List DomNode) (parent : DomNode) (path : List Nat) (n : Nat) :
    traverseChildrenGo tn (k :: ks) parent path n =
      ((match (tn k (some parent) path n).1 with
        | some childSchema =>
          childSchema.id ::
            (traverseChildrenGo tn ks parent path (tn k (some parent) path n).2.2).1
        | none =>
          (traverseChildrenGo tn ks parent path (tn k (some parent) path n).2.2).1),
       (tn k (some parent) path n).2.1
        ++ (traverseChildrenGo tn ks parent path (tn k (some parent) path n).2.2).2.1,
       (traverseChildrenGo tn ks parent path (tn k (some parent) path n).2.2).2.2) := rfl

theorem tnF_zero (k : DomNode) (parent : Option DomNode) (path : List Nat) (n : Nat) :
    traverseNodeF 0 k parent path n = (none, [], n) := rfl

theorem tnF_text (fuel : Nat) (s : String) (parent : Option DomNode)
    (path : List Nat) (n : Nat) :
    traverseNodeF (fuel + 1) (DomNode.text s) parent path n = (none, [], n) := rfl

theorem tnF_elem (fuel : Nat) (t : String) (cls : List String)
    (attrs : List (String × String)) (kids : List DomNode)
    (parent : Option DomNode) (path : List Nat) (n : Nat) :
    traverseNodeF (fuel + 1) (DomNode.elem t cls attrs kids) parent path n =
      (some { id := "element-" ++ toString n,
              tag := jsToLowerCase t,
              classes := cls,
              attributes := attrs.filter (fun attr => attr.1 != "class"),
              text := some (directText kids),
              path := path ++ [n],
              children := (traverseChildrenGo (traverseNodeF fuel) kids
                (DomNode.elem t cls attrs kids) (path ++ [n]) (n + 1)).1,
              isRepeatable :=
                isRepeatableElement (DomNode.elem t cls attrs kids) parent },
       { id := "element-" ++ toString n,
         tag := jsToLowerCase t,
         classes := cls,
         attributes := attrs.filter (fun attr => attr.1 != "class"),
         text := some (directText kids),
         path := path ++ [n],
         children := (traverseChildrenGo (traverseNodeF fuel) kids
           (DomNode.elem t cls attrs kids) (path ++ [n]) (n + 1)).1,
         isRepeatable :=
           isRepeatableElement (DomNode.elem t cls attrs kids) parent }
        :: (traverseChildrenGo (traverseNodeF fuel) kids
            (DomNode.elem t cls attrs kids) (path ++ [n]) (n + 1)).2.1,
       (traverseChildrenGo (traverseNodeF fuel) kids
         (DomNode.elem t cls attrs kids) (path ++ [n]) (n + 1)).2.2) := rfl

/-! ## Membership bounds for `childStartsF` -/

theorem childStartsF_mem (fuel : Nat) :
    ∀ (ks : List DomNode) (n : Nat) (cid : String),
      cid ∈ childStartsF fuel ks n →
      ∃ p, n ≤ p ∧ p < n + elemCountGo (elemCountF fuel) ks
        ∧ cid = "element-" ++ toString p := by
  intro ks
  induction ks with
  | nil =>
    intro n cid h
    rw [childStartsF_nil] at h
    cases h
  | cons k ks ih =>
    intro n cid h
    cases k with
    | text s =>
      rw [childStartsF_text] at h
      obtain ⟨p, h1, h2, h3⟩ := ih n cid h
      refine ⟨p, h1, ?_, h3⟩
      rw [elemCountGo_cons, elemCountF_text]
      omega
    | elem t cls attrs gkids =>
      rw [childStartsF_elem] at h
      by_cases hf : fuel = 0
      · rw [if_pos hf] at h
        obtain ⟨p, h1, h2, h3⟩ := ih n cid h
        refine ⟨p, h1, ?_, h3⟩
        rw [elemCountGo_cons]
        omega
      · rw [if_neg hf] at h
        have hone : 1 ≤ elemCountF fuel (DomNode.elem t cls attrs gkids) := by
          obtain ⟨f, rfl⟩ := Nat.exists_eq_succ_of_ne_zero hf
          rw [Nat.succ_eq_add_one, elemCountF_elem]
          omega
        rcases List.mem_cons.mp h with rfl | h
        · refine ⟨n, Nat.le_refl n, ?_, rfl⟩
          rw [elemCountGo_cons]
          omega
        · obtain ⟨p, h1, h2, h3⟩ :=
            ih (n + elemCountF fuel (DomNode.elem t cls attrs gkids)) cid h
          refine ⟨p, ?_, ?_, h3⟩
          · omega
          · rw [elemCountGo_cons]
            omega

/-! ## The traversal satisfies its specification -/

theorem listSpec_of_nodeSpec (fuel : Nat)
    (H : ∀ k parent path n, NodeSpec fuel k parent path n) :
    ∀ (ks : List DomNode) (parent : DomNode) (path : List Nat) (n : Nat),
      ListSpec fuel ks parent path n := by
  intro ks
  induction ks with
  | nil =>
    intro parent path n
    unfold ListSpec
    rw [tcg_nil, elemCountGo_nil, childStartsF_nil]
    refine ⟨rfl, by rw [idRange_zero]; rfl, rfl, ?_, by simp [idRange_zero]⟩
    intro j hj
    simp at hj
  | cons k ks ih =>
    intro parent path n
    obtain ⟨hA, hB, hC0, hCtext, hCelem, hD, hE⟩ := H k (some parent) path n
    unfold ListSpec
    rw [tcg_cons, hA]
    obtain ⟨iA, iB, iC, iD, iE⟩ := ih parent path (n + elemCountF fuel k)
    dsimp only
    refine ⟨?_, ?_, ?_, ?_, ?_⟩
    · rw [iA, elemCountGo_cons]
      omega
    · rw [List.map_append, hB, iB, elemCountGo_cons, ← idRange_append]
    · cases k with
      | text s =>
        rw [hCtext s rfl, childStartsF_text]
        have h0 : elemCountF fuel (DomNode.text s) = 0 := elemCountF_text fuel s
        rw [iC, h0, Nat.add_zero]
      | elem t cls attrs gkids =>
        by_cases hf : fuel = 0
        · subst hf
          rw [hC0 rfl, childStartsF_elem, if_pos rfl]
          have h0 : elemCountF 0 (DomNode.elem t cls attrs gkids) = 0 := rfl
          rw [iC, h0, Nat.add_zero]
        · obtain ⟨f, hfe⟩ := Nat.exists_eq_succ_of_ne_zero hf
          obtain ⟨r0, hr01, hr0id, _⟩ := hCelem f t cls attrs gkids hfe rfl
          rw [hr01, childStartsF_elem, if_neg hf]
          dsimp only
          rw [hr0id, iC]
    · intro j hj cid hmem
      have hlen1 : (traverseNodeF fuel k (some parent) path n).2.1.length
          = elemCountF fuel k := by
        have hlb := congrArg List.length hB
        rwa [List.length_map, idRange_length] at hlb
      rw [List.get_eq_getElem] at hmem
      by_cases hjl : j < (traverseNodeF fuel k (some parent) path n).2.1.length
      · rw [List.getElem_append_left hjl] at hmem
        obtain ⟨m, hm1, hm2, hm3⟩ := hD j hjl cid (by
          rw [List.get_eq_getElem]; exact hmem)
        refine ⟨m, hm1, ?_, hm3⟩
        rw [elemCountGo_cons]
        omega
      · have hjl2 : (traverseNodeF fuel k (some parent) path n).2.1.length ≤ j :=
          Nat.le_of_not_lt hjl
        rw [List.getElem_append_right hjl2] at hmem
        have hlapp := List.length_append
          (traverseNodeF fuel k (some parent) path n).2.1
          (traverseChildrenGo (traverseNodeF fuel) ks parent path
            (n + elemCountF fuel k)).2.1
        have hj2 : j - (traverseNodeF fuel k (some parent) path n).2.1.length
            < (traverseChildrenGo (traverseNodeF fuel) ks parent path
                (n + elemCountF fuel k)).2.1.length := by
          omega
        obtain ⟨m, hm1, hm2, hm3⟩ := iD _ hj2 cid (by
          rw [List.get_eq_getElem]; exact hmem)
        refine ⟨m, by omega, ?_, hm3⟩
        rw [elemCountGo_cons]
        omega
    · have hsplit : (match (traverseNodeF fuel k (some parent) path n).1 with
          | some childSchema =>
            childSchema.id :: (traverseChildrenGo (traverseNodeF fuel) ks parent path
              (n + elemCountF fuel k)).1
          | none => (traverseChildrenGo (traverseNodeF fuel) ks parent path
              (n + elemCountF fuel k)).1)
          = ((match (traverseNodeF fuel k (some parent) path n).1 with
              | some r0 => [r0.id]
              | none => [])
            ++ (traverseChildrenGo (traverseNodeF fuel) ks parent path
                (n + elemCountF fuel k)).1) := by
        cases (traverseNodeF fuel k (some parent) path n).1 <;> rfl
      rw [hsplit, List.perm_iff_count]
      intro a
      have h1 := List.Perm.count_eq hE a
      have h2 := List.Perm.count_eq iE a
      rw [elemCountGo_cons, ← idRange_append]
      simp only [List.count_append, List.flatMap_append] at h1 h2 ⊢
      omega

theorem nodeSpec_all :
    ∀ (fuel : Nat) (k : DomNode) (parent : Option DomNode) (path : List Nat) (n : Nat),
      NodeSpec fuel k parent path n := by
  intro fuel
  induction fuel with
  | zero =>
    intro k parent path n
    unfold NodeSpec
    rw [tnF_zero]
    have h0 : elemCountF 0 k = 0 := rfl
    rw [h0]
    refine ⟨rfl, by rw [idRange_zero]; rfl, fun _ => rfl, fun _ _ => rfl,
      ?_, ?_, by simp [idRange_zero]⟩
    · intro f t cls attrs kids hf
      omega
    · intro j hj
      simp at hj
  | succ fuel ih =>
    intro k parent path n
    cases k with
    | text s =>
      unfold NodeSpec
      rw [tnF_text, elemCountF_text]
      refine ⟨rfl, by rw [idRange_zero]; rfl, ?_, fun _ _ => rfl, ?_, ?_,
        by simp [idRange_zero]⟩
      · intro h
        omega
      · intro f t cls attrs kids _ hk
        cases hk
      · intro j hj
        simp at hj
    | elem t cls attrs kids =>
      obtain ⟨lA, lB, lC, lD, lE⟩ := listSpec_of_nodeSpec fuel ih kids
        (DomNode.elem t cls attrs kids) (path ++ [n]) (n + 1)
      unfold NodeSpec
      rw [tnF_elem, elemCountF_elem]
      dsimp only
      refine ⟨?_, ?_, ?_, ?_, ?_, ?_, ?_⟩
      · rw [lA]
        omega
      · rw [List.map_cons, lB]
        have : 1 + elemCountGo (elemCountF fuel) kids
            = elemCountGo (elemCountF fuel) kids + 1 := by omega
        rw [this, idRange_succ]
      · intro h
        omega
      · intro s hk
        cases hk
      · intro f t' cls' attrs' kids' hf hk
        cases hk
        have hfe : f = fuel := by omega
        subst hfe
        exact ⟨_, rfl, rfl, lC⟩
      · intro j hj cid hmem
        cases j with
        | zero =>
          rw [List.get_eq_getElem, List.getElem_cons_zero] at hmem
          dsimp only at hmem
          rw [lC] at hmem
          obtain ⟨p, hp1, hp2, hp3⟩ := childStartsF_mem fuel kids (n + 1) cid hmem
          exact ⟨p, by omega, by omega, hp3⟩
        | succ j =>
          rw [List.get_eq_getElem, List.getElem_cons_succ] at hmem
          have hj2 : j < (traverseChildrenGo (traverseNodeF fuel) kids
              (DomNode.elem t cls attrs kids) (path ++ [n]) (n + 1)).2.1.length := by
            have := hj
            simp only [List.length_cons] at this
            omega
          obtain ⟨m, hm1, hm2, hm3⟩ := lD j hj2 cid (by
            rw [List.get_eq_getElem]; exact hmem)
          exact ⟨m, by omega, by omega, hm3⟩
      · rw [List.perm_iff_count]
        intro a
        have h1 := List.Perm.count_eq lE a
        have hsucc : 1 + elemCountGo (elemCountF fuel) kids
            = elemCountGo (elemCountF fuel) kids + 1 := by omega
        rw [hsucc, idRange_succ]
        simp only [List.flatMap_cons, List.count_append, List.count_cons,
          List.count_nil] at h1 ⊢
        rw [lC] at h1 ⊢
        omega

/-! ## Serializer unfolding and stability -/

theorem filterMap_ite {α β : Type} (p : α → Bool) (f : α → β) (l : List α) :
    l.filterMap (fun a => if p a then some (f a) else none) = (l.filter p).map f := by
  induction l with
  | nil => rfl
  | cons a l ih =>
    by_cases hp : p a
    · simp [List.filterMap_cons, List.filter_cons, hp, ih]
    · simp [List.filterMap_cons, List.filter_cons, hp, ih]

theorem buildF_find_none (elements : List ElementRecord) (fuel : Nat)
    (elementId : String)
    (h : elements.find? (fun el => el.id == elementId) = none) :
    buildElementFuel elements (fuel + 1) elementId = "" := by
  simp only [buildElementFuel, h]

theorem buildF_invalid (elements : List ElementRecord) (fuel : Nat)
    (elementId : String) (element : ElementRecord)
    (h : elements.find? (fun el => el.id == elementId) = some element)
    (hbad : isValidTagName element.tag = false) :
    buildElementFuel elements (fuel + 1) elementId = "" := by
  simp only [buildElementFuel, h, hbad, Bool.not_false, if_true]

theorem buildF_valid (elements : List ElementRecord) (fuel : Nat)
    (elementId : String) (element : ElementRecord)
    (h : elements.find? (fun el => el.id == elementId) = some element)
    (hok : isValidTagName element.tag = true) :
    buildElementFuel elements (fuel + 1) elementId =
      "<" ++ element.tag ++ attrStringOf element ++ ">"
        ++ escapeHTML (element.text.getD "")
        ++ String.join (element.children.map
            (fun childId => buildElementFuel elements fuel childId))
        ++ "</" ++ element.tag ++ ">" := by
  simp only [buildElementFuel, h, hok, Bool.not_true, Bool.false_eq_true, if_false]
  unfold attrStringOf renderedAttrs
  rw [← filterMap_ite]

theorem buildElementFuel_stable (elements : List ElementRecord)
    (mu : String → Nat)
    (hdec : ∀ el ∈ elements, ∀ cid ∈ el.children, mu cid < mu el.id) :
    ∀ (bound f1 f2 : Nat) (elementId : String),
      mu elementId < bound → mu elementId < f1 → mu elementId < f2 →
      buildElementFuel elements f1 elementId
        = buildElementFuel elements f2 elementId := by
  intro bound
  induction bound with
  | zero => intro f1 f2 elementId h _ _; omega
  | succ bound ih =>
    intro f1 f2 elementId _ h1 h2
    obtain ⟨a, rfl⟩ : ∃ a, f1 = a + 1 := ⟨f1 - 1, by omega⟩
    obtain ⟨b, rfl⟩ : ∃ b, f2 = b + 1 := ⟨f2 - 1, by omega⟩
    cases hfind : elements.find? (fun el => el.id == elementId) with
    | none =>
      rw [buildF_find_none elements a elementId hfind,
        buildF_find_none elements b elementId hfind]
    | some element =>
      have hel : element ∈ elements := List.mem_of_find?_eq_some hfind
      have hid : element.id = elementId := by
        have hp := List.find?_some hfind
        simpa [beq_iff_eq] using hp
      cases hval : isValidTagName element.tag with
      | false =>
        rw [buildF_invalid elements a elementId element hfind hval,
          buildF_invalid elements b elementId element hfind hval]
      | true =>
        rw [buildF_valid elements a elementId element hfind hval,
          buildF_valid elements b elementId element hfind hval]
        have hch : element.children.map
            (fun childId => buildElementFuel elements a childId)
            = element.children.map
              (fun childId => buildElementFuel elements b childId) := by
          apply List.map_congr_left
          intro cid hcid
          have hmu : mu cid < mu element.id := hdec element hel cid hcid
          rw [hid] at hmu
          exact ih a b cid (by omega) (by omega) (by omega)
        rw [hch]

/-! ## Claim theorems -/

/-- C1: Round-trip stability of escaping.  Serializing the collection
containing the record whose text is the literal string `<script>` emits the
escaped form `&lt;script&gt;`, and re-extracting the serialized markup with
the Extractor yields a record whose text is again the literal `<script>`. -/
theorem escape_roundtrip_identity :
    schemaToHTML (some [scriptTextRecord]) = "<div>&lt;script&gt;</div>"
    ∧ (parseHTMLToSchemaStr "<div>&lt;script&gt;</div>").map (fun r => r.text)
        = [some "<script>"] :=
  ⟨by decide, by decide⟩

/-- C2: Serializer well-formedness guarantee.  Every string emitted through
`escapeHTML` (which `buildElement` applies to class tokens, attribute keys,
attribute values and text) contains no raw `<`, `>`, `"` or apostrophe, and
every `&` in it begins one of the five emitted entities; and on a concrete
record holding hostile text, class and attribute strings the serializer
output has all five characters escaped. -/
theorem serializer_escape_wellformed :
    (∀ s : String,
      ('<' ∉ (escapeHTML s).data) ∧ ('>' ∉ (escapeHTML s).data)
      ∧ ('"' ∉ (escapeHTML s).data) ∧ ('\'' ∉ (escapeHTML s).data)
      ∧ isEscapedText (escapeHTML s).data = true)
    ∧ schemaToHTML (some [hostileRecord])
        = "<div class=\"x&quot;y\" title=\"it&#039;s\">a&lt;b&amp;c</div>" := by
  constructor
  · intro s
    refine ⟨?_, ?_, ?_, ?_, ?_⟩
    · rw [escapeHTML_data]
      intro hmem
      obtain ⟨a, _, hin⟩ := List.mem_flatMap.mp hmem
      exact escapeChar_no_raw a '<' (Or.inl rfl) hin
    · rw [escapeHTML_data]
      intro hmem
      obtain ⟨a, _, hin⟩ := List.mem_flatMap.mp hmem
      exact escapeChar_no_raw a '>' (Or.inr (Or.inl rfl)) hin
    · rw [escapeHTML_data]
      intro hmem
      obtain ⟨a, _, hin⟩ := List.mem_flatMap.mp hmem
      exact escapeChar_no_raw a '"' (Or.inr (Or.inr (Or.inl rfl))) hin
    · rw [escapeHTML_data]
      intro hmem
      obtain ⟨a, _, hin⟩ := List.mem_flatMap.mp hmem
      exact escapeChar_no_raw a '\'' (Or.inr (Or.inr (Or.inr rfl))) hin
    · rw [escapeHTML_data]
      exact isEscapedText_flatMap s.data
  · decide

/-- Witness for C2 at a concrete hostile string. -/
theorem serializer_escape_wellformed_witness :
    ('<' ∉ (escapeHTML "a<b&c\"").data)
    ∧ isEscapedText (escapeHTML "a<b&c\"").data = true :=
  ⟨(serializer_escape_wellformed.1 "a<b&c\"").1,
   (serializer_escape_wellformed.1 "a<b&c\"").2.2.2.2⟩

/-- C3 counterexample: a null/undefined record collection does not raise;
the guard of `schemaToHTML` silently coerces it to the empty output string,
contradicting the claim that such input fails fast with an explicit error. -/
theorem null_collection_coerced_counterexample : schemaToHTML none = "" := rfl

/-- C3 (amended): passing null/undefined to the Serializer yields the empty
string (the guard `if (!elements || elements.length === 0) return ''`
silently coerces), and null markup given to the Extractor yields the empty
record collection (`DOMParser` stringifies null to the text "null", which
contains no element), with no error raised in either case. -/
theorem null_input_silently_coerced :
    schemaToHTML none = "" ∧ parseHTMLToSchemaStr "null" = [] :=
  ⟨rfl, by decide⟩

/-- C6: Invalid tag guard.  Whenever the record a serializer step looks up
has a tag rejected by the name pattern, that step contributes the empty
string (no exception is modelled anywhere: the serializer is total); on a
concrete collection the invalid-tag record's subtree vanishes from the
output while its sibling is still serialized, and the tag `123invalid` is
indeed rejected. -/
theorem invalid_tag_guard :
    (∀ (elements : List ElementRecord) (fuel : Nat) (elementId : String)
        (element : ElementRecord),
      elements.find? (fun el => el.id == elementId) = some element →
      isValidTagName element.tag = false →
      buildElementFuel elements fuel elementId = "")
    ∧ schemaToHTML (some [invalidTagRecord, okParagraphRecord]) = "\n<p>ok</p>"
    ∧ isValidTagName "123invalid" = false := by
  refine ⟨?_, by decide, by decide⟩
  intro elements fuel elementId element h hbad
  cases fuel with
  | zero => rfl
  | succ fuel => exact buildF_invalid elements fuel elementId element h hbad

/-- Witness for C6: the concrete invalid-tag record serializes to "". -/
theorem invalid_tag_guard_witness :
    buildElementFuel [invalidTagRecord] 2 "element-0" = "" :=
  invalid_tag_guard.1 [invalidTagRecord] 2 "element-0" invalidTagRecord
    (by decide) (by decide)

/-- C7: Attribute-name filtering.  A serializer step on a found record with
a valid tag emits exactly the attributes whose keys match the safe-name
pattern (key and value escaped, after the class attribute); the key
`onclick` matches the pattern while `data bad` does not, and on a concrete
record carrying both only `onclick` appears in the output. -/
theorem attribute_name_filtering :
    (∀ (elements : List ElementRecord) (fuel : Nat) (elementId : String)
        (element : ElementRecord),
      elements.find? (fun el => el.id == elementId) = some element →
      isValidTagName element.tag = true →
      buildElementFuel elements (fuel + 1) elementId =
        "<" ++ element.tag ++ attrStringOf element ++ ">"
          ++ escapeHTML (element.text.getD "")
          ++ String.join (element.children.map
              (fun childId => buildElementFuel elements fuel childId))
          ++ "</" ++ element.tag ++ ">")
    ∧ matchesNamePattern "onclick" = true
    ∧ matchesNamePattern "data bad" = false
    ∧ schemaToHTML (some [attrDemoRecord]) = "<div onclick=\"alert(1)\">hi</div>" :=
  ⟨fun elements fuel elementId element h hok =>
      buildF_valid elements fuel elementId element h hok,
   by decide, by decide, by decide⟩

/-- Witness for C7 at the concrete record with keys `onclick` and
`data bad`. -/
theorem attribute_name_filtering_witness :
    buildElementFuel [attrDemoRecord] 1 "element-0" =
      "<" ++ attrDemoRecord.tag ++ attrStringOf attrDemoRecord ++ ">"
        ++ escapeHTML (attrDemoRecord.text.getD "")
        ++ String.join (attrDemoRecord.children.map
            (fun childId => buildElementFuel [attrDemoRecord] 0 childId))
        ++ "</" ++ attrDemoRecord.tag ++ ">" :=
  attribute_name_filtering.1 [attrDemoRecord] 0 "element-0" attrDemoRecord
    (by decide) (by decide)

/-- C8: Field projection ordering.  For every record the projected field
list is the read-only tag field, then the text field exactly when the
record defines a text value, then the classes field with the space-joined
classes, then one `attr_`-prefixed field per attribute in iteration order
with that attribute's value; on the record with classes `["a","b"]` and
attributes `{href:"#", id:"x"}` the projection is exactly the claimed
five-field list. -/
theorem form_field_projection :
    (∀ element : ElementRecord,
      (generateFormFields element).map (fun f => (f.name, f.value)) =
        [("tag", element.tag)]
        ++ (match element.text with
            | some t => [("text", t)]
            | none => [])
        ++ [("classes", String.intercalate " " element.classes)]
        ++ element.attributes.map (fun kv => ("attr_" ++ kv.1, kv.2)))
    ∧ (∀ element : ElementRecord,
        (generateFormFields element).head?
          = some (⟨"tag", "Tag", "text", element.tag, true⟩ : FormField))
    ∧ (generateFormFields formDemoRecord).map (fun f => (f.name, f.value))
        = [("tag", "div"), ("text", "hello"), ("classes", "a b"),
           ("attr_href", "#"), ("attr_id", "x")] := by
  refine ⟨?_, ?_, by decide⟩
  · intro element
    unfold generateFormFields
    cases element.text with
    | none => simp
    | some t => simp
  · intro element
    rfl

/-- C9: Serializer termination on acyclic collections.  When the children
reference graph admits a topological rank bounded by the collection size
(the standard witness of acyclicity), the fuel-indexed serializer is
already at its fixpoint at fuel `elements.length`: every larger fuel
produces exactly `schemaToHTML`'s output, so the unbounded JS recursion
terminates with that value. -/
theorem serializer_termination_on_acyclic :
    ∀ (elements : List ElementRecord) (mu : String → Nat),
      (∀ el ∈ elements, ∀ cid ∈ el.children, mu cid < mu el.id) →
      (∀ el ∈ elements, mu el.id < elements.length) →
      ∀ extra : Nat,
        schemaToHTMLFuel elements (elements.length + extra)
          = schemaToHTML (some elements) := by
  intro elements mu hdec hbound extra
  by_cases hnil : elements = []
  · subst hnil; rfl
  · have hs : schemaToHTML (some elements) =
        if elements.length = 0 then "" else schemaToHTMLFuel elements elements.length := rfl
    rw [hs, if_neg (fun h => hnil (List.length_eq_zero.mp h))]
    unfold schemaToHTMLFuel
    dsimp only
    congr 1
    apply List.map_congr_left
    intro el hel
    have helm : el ∈ elements := List.mem_of_mem_filter hel
    exact buildElementFuel_stable elements mu hdec elements.length
      (elements.length + extra) elements.length el.id (hbound el helm)
      (by have := hbound el helm; omega) (hbound el helm)

/-- Witness for C9 on a concrete acyclic two-record collection. -/
theorem serializer_termination_witness :
    schemaToHTMLFuel nestedPairCollection (nestedPairCollection.length + 3)
      = schemaToHTML (some nestedPairCollection) :=
  serializer_termination_on_acyclic nestedPairCollection nestedPairRank
    (by decide) (by decide) 3

theorem map_get_eq {A B : Type} (f : A → B) (l : List A) (l2 : List B)
    (h : l.map f = l2) (m : Nat) (hm : m < l.length) :
    f (l.get ⟨m, hm⟩) = l2.get ⟨m, by rw [← h, List.length_map]; exact hm⟩ := by
  subst h
  rw [List.get_eq_getElem, List.get_eq_getElem, List.getElem_map]

/-- C5: Extraction order and id format.  For any body, the Extractor
returns exactly as many records as there are element nodes, their ids are
`element-0 … element-(N-1)` in traversal (pre-order) order, and the record
built for an element node numbered `n` lists in `children` precisely the
ids assigned to its direct element children, in document order. -/
theorem extraction_preorder :
    ∀ (t : String) (cls : List String) (attrs : List (String × String))
      (kids : List DomNode),
      (parseHTMLToSchema (DomNode.elem t cls attrs kids)).length
          = countElements (DomNode.elem t cls attrs kids)
      ∧ (parseHTMLToSchema (DomNode.elem t cls attrs kids)).map (fun r => r.id)
          = (List.range (countElements (DomNode.elem t cls attrs kids))).map
              (fun i => "element-" ++ toString i)
      ∧ (∀ (f : Nat) (parent : Option DomNode) (path : List Nat) (n : Nat)
            (r0 : ElementRecord),
          (traverseNodeF (f + 1) (DomNode.elem t cls attrs kids) parent path n).1
            = some r0 →
          r0.children = childStartsF f kids (n + 1)) := by
  intro t cls attrs kids
  obtain ⟨lA, lB, lC, lD, lE⟩ := listSpec_of_nodeSpec (domSizeL kids)
    (nodeSpec_all (domSizeL kids)) kids (DomNode.elem t cls attrs kids) [] 0
  have hp : parseHTMLToSchema (DomNode.elem t cls attrs kids)
      = (traverseChildrenGo (traverseNodeF (domSizeL kids)) kids
          (DomNode.elem t cls attrs kids) [] 0).2.1 := rfl
  have hc : countElements (DomNode.elem t cls attrs kids)
      = elemCountGo (elemCountF (domSizeL kids)) kids := rfl
  refine ⟨?_, ?_, ?_⟩
  · rw [hp, hc]
    have hlb := congrArg List.length lB
    rwa [List.length_map, idRange_length] at hlb
  · rw [hp, hc, lB]
    show idRange 0 (elemCountGo (elemCountF (domSizeL kids)) kids) = _
    unfold idRange
    rw [List.range_eq_range']
  · intro f parent path n r0 h
    obtain ⟨_, _, _, _, hCelem, _, _⟩ := nodeSpec_all (f + 1)
      (DomNode.elem t cls attrs kids) parent path n
    obtain ⟨r1, hr1, _, hr1ch⟩ := hCelem f t cls attrs kids rfl rfl
    rw [h] at hr1
    rw [Option.some.inj hr1]
    exact hr1ch

/-- Witness for C5: the record the traversal returns for a concrete
`<div><span></span></div>` node has exactly its direct child's id. -/
theorem extraction_preorder_witness :
    ({ id := "element-0", tag := "div", classes := [], attributes := [],
       text := some "", path := [0], children := ["element-1"],
       isRepeatable := false } : ElementRecord).children
      = childStartsF 5 [DomNode.elem "SPAN" [] [] []] (0 + 1) :=
  (extraction_preorder "DIV" [] [] [DomNode.elem "SPAN" [] [] []]).2.2 5 none [] 0
    { id := "element-0", tag := "div", classes := [], attributes := [],
      text := some "", path := [0], children := ["element-1"],
      isRepeatable := false }
    (by decide)

/-- C10: Extractor forest invariant.  In every extracted collection, each
id referenced in a `children` field names a record strictly later in the
collection (parents precede children), so references never dangle and the
reference graph is acyclic; and the concatenation of all `children` lists
has no duplicate, so each record is referenced as a child at most once. -/
theorem extractor_forest_invariant :
    ∀ (t : String) (cls : List String) (attrs : List (String × String))
      (kids : List DomNode),
      (∀ (i : Nat) (hi : i < (parseHTMLToSchema (DomNode.elem t cls attrs kids)).length)
          (cid : String),
        cid ∈ ((parseHTMLToSchema (DomNode.elem t cls attrs kids)).get ⟨i, hi⟩).children →
        ∃ j, ∃ hj : j < (parseHTMLToSchema (DomNode.elem t cls attrs kids)).length,
          i < j ∧ ((parseHTMLToSchema (DomNode.elem t cls attrs kids)).get ⟨j, hj⟩).id = cid)
      ∧ ((parseHTMLToSchema (DomNode.elem t cls attrs kids)).flatMap
          (fun r => r.children)).Nodup := by
  intro t cls attrs kids
  obtain ⟨lA, lB, lC, lD, lE⟩ := listSpec_of_nodeSpec (domSizeL kids)
    (nodeSpec_all (domSizeL kids)) kids (DomNode.elem t cls attrs kids) [] 0
  have hp : parseHTMLToSchema (DomNode.elem t cls attrs kids)
      = (traverseChildrenGo (traverseNodeF (domSizeL kids)) kids
          (DomNode.elem t cls attrs kids) [] 0).2.1 := rfl
  have hlen : (parseHTMLToSchema (DomNode.elem t cls attrs kids)).length
      = elemCountGo (elemCountF (domSizeL kids)) kids := by
    rw [hp]
    have hlb := congrArg List.length lB
    rwa [List.length_map, idRange_length] at hlb
  constructor
  · intro i hi cid hmem
    obtain ⟨m, hm1, hm2, hm3⟩ := lD i hi cid hmem
    have hjlt : m < (parseHTMLToSchema (DomNode.elem t cls attrs kids)).length := by
      rw [hlen]; omega
    refine ⟨m, hjlt, by omega, ?_⟩
    have hid := map_get_eq (fun r => r.id)
      (parseHTMLToSchema (DomNode.elem t cls attrs kids))
      (idRange 0 (elemCountGo (elemCountF (domSizeL kids)) kids)) lB m hjlt
    rw [idRange_getElem] at hid
    rw [hm3]
    exact hid.trans (by rw [Nat.zero_add])
  · rw [hp]
    have hnd : (idRange 0 (elemCountGo (elemCountF (domSizeL kids)) kids)).Nodup :=
      idRange_nodup _ _
    have hall : ((traverseChildrenGo (traverseNodeF (domSizeL kids)) kids
        (DomNode.elem t cls attrs kids) [] 0).1
        ++ (traverseChildrenGo (traverseNodeF (domSizeL kids)) kids
            (DomNode.elem t cls attrs kids) [] 0).2.1.flatMap
            (fun r => r.children)).Nodup :=
      (List.Perm.nodup_iff lE).mpr hnd
    exact List.Nodup.of_append_right hall

/-- Witness for C10: in the extraction of `<div><span></span></div>` the
child reference of the first record resolves to a strictly later record. -/
theorem extractor_forest_invariant_witness :
    ∃ j, ∃ hj : j < (parseHTMLToSchema (DomNode.elem "BODY" [] []
        [DomNode.elem "DIV" [] [] [DomNode.elem "SPAN" [] [] []]])).length,
      0 < j ∧ ((parseHTMLToSchema (DomNode.elem "BODY" [] []
        [DomNode.elem "DIV" [] [] [DomNode.elem "SPAN" [] [] []]])).get ⟨j, hj⟩).id
        = "element-1" :=
  (extractor_forest_invariant "BODY" [] []
    [DomNode.elem "DIV" [] [] [DomNode.elem "SPAN" [] [] []]]).1 0 (by decide)
    "element-1" (by decide)

/-- C4: Repeatability classification.  An element is classified repeatable
exactly when its lower-cased tag is `li`, or at least two of its parent's
direct element children with the same tag name (the element included)
share the same order-independent class key, or its lower-cased tag is one
of span/a/button/div/article/section while the parent's lower-cased tag is
one of ul/ol/nav/menu; concretely, a lone `<li>` is repeatable, and among
three `<a>` siblings classed `x y`, `y x` and `z` the first two are
repeatable and the third is not. -/
theorem repeatable_classification :
    (∀ (t : String) (cls : List String) (attrs : List (String × String))
        (kids : List DomNode) (parent : Option DomNode),
      isRepeatableElement (DomNode.elem t cls attrs kids) parent = true ↔
        (jsToLowerCase t = "li"
        ∨ (∃ p, parent = some p ∧
            2 ≤ (((childrenOf p).filter (fun c => tagNameOf c = t)).filter
                (fun c => classKey (classListOf c) = classKey cls)).length)
        ∨ (repeatableTags.contains (jsToLowerCase t) = true
            ∧ ∃ p, parent = some p
              ∧ ["ul", "ol", "nav", "menu"].contains
                  (jsToLowerCase (tagNameOf p)) = true)))
    ∧ (parseHTMLToSchema (DomNode.elem "BODY" [] []
        [DomNode.elem "UL" [] []
          [DomNode.elem "LI" [] [] [DomNode.text "x"]]])).map (fun r => r.isRepeatable)
        = [false, true]
    ∧ (parseHTMLToSchema (DomNode.elem "BODY" [] []
        [DomNode.elem "DIV" [] []
          [DomNode.elem "A" ["x", "y"] [("class", "x y")] [DomNode.text "1"],
           DomNode.elem "A" ["y", "x"] [("class", "y x")] [DomNode.text "2"],
           DomNode.elem "A" ["z"] [("class", "z")] [DomNode.text "3"]]])).map
        (fun r => r.isRepeatable) = [false, true, true, false] := by
  refine ⟨?_, by decide, by decide⟩
  intro t cls attrs kids parent
  unfold isRepeatableElement
  rw [show tagNameOf (DomNode.elem t cls attrs kids) = t from rfl,
    show classListOf (DomNode.elem t cls attrs kids) = cls from rfl]
  by_cases hli : jsToLowerCase t = "li"
  · rw [if_pos hli]
    exact iff_of_true rfl (Or.inl hli)
  · rw [if_neg hli]
    cases parent with
    | none =>
      dsimp only
      constructor
      · intro h
        by_cases hrt : repeatableTags.contains (jsToLowerCase t) = true
        · rw [if_pos hrt] at h
          exact absurd h (by simp)
        · rw [if_neg hrt] at h
          exact absurd h (by simp)
      · rintro (h | ⟨p', hp', _⟩ | ⟨_, p', hp', _⟩)
        · exact absurd h hli
        · cases hp'
        · cases hp'
    | some p =>
      dsimp only
      by_cases hlen :
          ((childrenOf p).filter (fun c => tagNameOf c = t)).length > 1
      · rw [if_pos hlen]
        by_cases hsim :
            (((childrenOf p).filter (fun c => tagNameOf c = t)).filter
              (fun c => classKey (classListOf c) = classKey cls)).length > 1
        · rw [decide_eq_true hsim]
          rw [if_pos rfl]
          exact iff_of_true rfl (Or.inr (Or.inl ⟨p, rfl, by omega⟩))
        · rw [decide_eq_false hsim]
          rw [if_neg (by simp)]
          constructor
          · intro h
            by_cases hrt : repeatableTags.contains (jsToLowerCase t) = true
            · rw [if_pos hrt] at h
              exact Or.inr (Or.inr ⟨hrt, p, rfl, h⟩)
            · rw [if_neg hrt] at h
              exact absurd h (by simp)
          · rintro (h | ⟨p', hp', h2⟩ | ⟨hrt, p', hp', h3⟩)
            · exact absurd h hli
            · obtain rfl : p = p' := Option.some.inj hp'
              exact absurd h2 (by omega)
            · obtain rfl : p = p' := Option.some.inj hp'
              rw [if_pos hrt]
              exact h3
      · rw [if_neg hlen]
        rw [if_neg (by simp)]
        have hle := List.length_filter_le
          (fun c => classKey (classListOf c) = classKey cls)
          ((childrenOf p).filter (fun c => tagNameOf c = t))
        constructor
        · intro h
          by_cases hrt : repeatableTags.contains (jsToLowerCase t) = true
          · rw [if_pos hrt] at h
            exact Or.inr (Or.inr ⟨hrt, p, rfl, h⟩)
          · rw [if_neg hrt] at h
            exact absurd h (by simp)
        · rintro (h | ⟨p', hp', h2⟩ | ⟨hrt, p', hp', h3⟩)
          · exact absurd h hli
          · obtain rfl : p = p' := Option.some.inj hp'
            exact absurd h2 (by omega)
          · obtain rfl : p = p' := Option.some.inj hp'
            rw [if_pos hrt]
            exact h3

/-- Witness for C4: a lone `<li>` (no parent) is repeatable. -/
theorem repeatable_classification_witness :
    isRepeatableElement (DomNode.elem "LI" [] [] []) none = true :=
  (repeatable_classification.1 "LI" [] [] [] none).mpr (Or.inl (by decide))

/-! ## Fuel sufficiency: the traversal fuel `domSizeL` is never exhausted -/

theorem domSizeN_pos (k : DomNode) : 1 ≤ domSizeN k := by
  cases k <;> simp [domSizeN]

theorem domSizeN_mem_le (k : DomNode) (ks : List DomNode) (h : k ∈ ks) :
    domSizeN k ≤ domSizeL ks := by
  induction ks with
  | nil => cases h
  | cons a ks ih =>
    rcases List.mem_cons.mp h with rfl | h
    · show domSizeN k ≤ domSizeN k + domSizeL ks
      omega
    · have := ih h
      show domSizeN k ≤ domSizeN a + domSizeL ks
      omega

theorem elemCountGo_congr (cn cm : DomNode → Nat) (ks : List DomNode)
    (h : ∀ k ∈ ks, cn k = cm k) : elemCountGo cn ks = elemCountGo cm ks := by
  induction ks with
  | nil => rfl
  | cons k ks ih =>
    rw [elemCountGo_cons, elemCountGo_cons, h k (List.mem_cons_self k ks),
      ih (fun a ha => h a (List.mem_cons_of_mem k ha))]

theorem elemCountF_stable :
    ∀ (f g : Nat) (k : DomNode), domSizeN k ≤ f → domSizeN k ≤ g →
      elemCountF f k = elemCountF g k := by
  intro f
  induction f with
  | zero =>
    intro g k hf
    have := domSizeN_pos k
    omega
  | succ f ih =>
    intro g k hf hg
    obtain ⟨b, rfl⟩ : ∃ b, g = b + 1 := ⟨g - 1, by have := domSizeN_pos k; omega⟩
    cases k with
    | text s => rw [elemCountF_text, elemCountF_text]
    | elem t cls attrs kids =>
      rw [elemCountF_elem, elemCountF_elem]
      have hsz : domSizeN (DomNode.elem t cls attrs kids) = 1 + domSizeL kids := rfl
      have hcongr : ∀ k2 ∈ kids, elemCountF f k2 = elemCountF b k2 := by
        intro k2 hk2
        have := domSizeN_mem_le k2 kids hk2
        exact ih b k2 (by omega) (by omega)
      rw [elemCountGo_congr (elemCountF f) (elemCountF b) kids hcongr]

theorem traverseChildrenGo_congr
    (tn tm : DomNode → Option DomNode → List Nat → Nat →
      Option ElementRecord × List ElementRecord × Nat)
    (ks : List DomNode)
    (h : ∀ k ∈ ks, ∀ par path n, tn k par path n = tm k par path n) :
    ∀ (parent : DomNode) (path : List Nat) (n : Nat),
      traverseChildrenGo tn ks parent path n
        = traverseChildrenGo tm ks parent path n := by
  induction ks with
  | nil => intro parent path n; rw [tcg_nil, tcg_nil]
  | cons k ks ih =>
    intro parent path n
    rw [tcg_cons, tcg_cons, h k (List.mem_cons_self k ks),
      ih (fun a ha => h a (List.mem_cons_of_mem k ha))]

theorem traverseNodeF_stable :
    ∀ (f g : Nat) (k : DomNode), domSizeN k ≤ f → domSizeN k ≤ g →
      ∀ (parent : Option DomNode) (path : List Nat) (n : Nat),
        traverseNodeF f k parent path n = traverseNodeF g k parent path n := by
  intro f
  induction f with
  | zero =>
    intro g k hf
    have := domSizeN_pos k
    omega
  | succ f ih =>
    intro g k hf hg parent path n
    obtain ⟨b, rfl⟩ : ∃ b, g = b + 1 := ⟨g - 1, by have := domSizeN_pos k; omega⟩
    cases k with
    | text s => rw [tnF_text, tnF_text]
    | elem t cls attrs kids =>
      rw [tnF_elem, tnF_elem]
      have hsz : domSizeN (DomNode.elem t cls attrs kids) = 1 + domSizeL kids := rfl
      have hcongr : ∀ k2 ∈ kids, ∀ par path2 n2,
          traverseNodeF f k2 par path2 n2 = traverseNodeF b k2 par path2 n2 := by
        intro k2 hk2 par path2 n2
        have := domSizeN_mem_le k2 kids hk2
        exact ih b k2 (by omega) (by omega) par path2 n2
      rw [traverseChildrenGo_congr (traverseNodeF f) (traverseNodeF b) kids hcongr]

/-- Any fuel at least `domSizeL kids` reproduces `parseHTMLToSchema`
exactly: the fuel in the definition is not a truncation. -/
theorem parseHTMLToSchema_fuel_sufficient (t : String) (cls : List String)
    (attrs : List (String × String)) (kids : List DomNode) (f : Nat)
    (hf : domSizeL kids ≤ f) :
    (traverseChildrenGo (traverseNodeF f) kids
      (DomNode.elem t cls attrs kids) [] 0).2.1
      = parseHTMLToSchema (DomNode.elem t cls attrs kids) := by
  have hcongr : ∀ k2 ∈ kids, ∀ par path2 n2,
      traverseNodeF f k2 par path2 n2 = traverseNodeF (domSizeL kids) k2 par path2 n2 := by
    intro k2 hk2 par path2 n2
    have := domSizeN_mem_le k2 kids hk2
    exact traverseNodeF_stable f (domSizeL kids) k2 (by omega) (by omega) par path2 n2
  have hgo := traverseChildrenGo_congr (traverseNodeF f) (traverseNodeF (domSizeL kids))
    kids hcongr (DomNode.elem t cls attrs kids) [] 0
  rw [hgo]
  rfl
